import Mathlib

/-!
Verification of the aggregation and enrichment engine of the traffic-monitor
dashboard (src/out.js).  The JavaScript functions are shallowly embedded as
executable Lean definitions: records are structures, the mutable record map is
an association list, asynchronous lookup dispatch is modelled by returning the
list of external calls a synchronous pass issues, and JS `Date` instants are
milliseconds since the epoch (`Int`), with the epoch `0` as the invalid-date
sentinel.
-/

namespace TrafficMonitor

/-! ## JavaScript string primitives

JS string operators used by out.js, modelled on the character list so that
they evaluate by kernel reduction: `a || b` on strings, `String.prototype.trim`,
`String.prototype.split` with a single-character separator, and
`String.prototype.toLowerCase` (ASCII, sufficient for the data in scope). -/

/-- JS `a || b` for strings: `a` when truthy (non-empty), else `b`. -/
def jsOr (a b : String) : String := if a = "" then b else a

/-- Split a character list at every occurrence of `sep`, JS
`String.prototype.split` semantics (`"" → [""]`, separators kept as empty
fields). -/
def splitCharsOn (sep : Char) : List Char → List (List Char)
  | [] => [[]]
  | c :: rest =>
    let r := splitCharsOn sep rest
    if c = sep then [] :: r
    else
      match r with
      | h :: t => (c :: h) :: t
      | [] => [[c]]

/-- JS `line.split(sep)` for a one-character separator. -/
def jsSplit (sep : Char) (s : String) : List String :=
  (splitCharsOn sep s.data).map (fun cs => String.mk cs)

/-- JS `String.prototype.trim`: strip whitespace from both ends. -/
def jsTrim (s : String) : String :=
  String.mk (((s.data.dropWhile Char.isWhitespace).reverse.dropWhile
      Char.isWhitespace).reverse)

/-- ASCII lower-casing of one character (JS `toLowerCase` on the data in
scope). -/
def lowerChar (c : Char) : Char :=
  if 'A' ≤ c ∧ c ≤ 'Z' then Char.ofNat (c.toNat + 32) else c

/-- JS `String.prototype.toLowerCase` (ASCII). -/
def jsToLower (s : String) : String := String.mk (s.data.map lowerChar)

/-! ## Timestamp normalizer (`parseTimestamp`, out.js lines 349-367)

`new Date("Feb 14 15:54:10 2026")` is modelled as a parser of the
`Month Day HH:MM:SS Year` token shape journalctl produces, evaluated to
milliseconds since the epoch (local time taken as a fixed offset, so ordering
and the sentinel are faithful).  Any shape or component the parser rejects is
JS `Invalid Date`, which out.js maps to the epoch. -/

/-- Parse a list of decimal digit characters to a number; `none` when empty or
a non-digit appears. -/
def digitsToNat : List Char → Option Nat
  | [] => none
  | cs => cs.foldl (fun acc c =>
      match acc with
      | none => none
      | some n => if c.isDigit then some (n * 10 + (c.toNat - '0'.toNat)) else none)
      (some 0)

/-- Month abbreviation to month number (1-12), as journalctl emits it. -/
def monthNumber : String → Option Nat
  | "Jan" => some 1
  | "Feb" => some 2
  | "Mar" => some 3
  | "Apr" => some 4
  | "May" => some 5
  | "Jun" => some 6
  | "Jul" => some 7
  | "Aug" => some 8
  | "Sep" => some 9
  | "Oct" => some 10
  | "Nov" => some 11
  | "Dec" => some 12
  | _ => none

/-- Days from the Unix epoch to the first day of month `m` of year `y`
(proleptic Gregorian, days-from-civil algorithm). -/
def daysFromCivil (y : Int) (m : Nat) (d : Int) : Int :=
  let y' : Int := if m ≤ 2 then y - 1 else y
  let era : Int := (if 0 ≤ y' then y' else y' - 399) / 400
  let yoe : Int := y' - era * 400
  let mp : Int := (((m : Int) + 9) % 12)
  let doy : Int := (153 * mp + 2) / 5 + d - 1
  let doe : Int := yoe * 365 + yoe / 4 - yoe / 100 + doy
  era * 146097 + doe - 719468

/-- Parse `"HH:MM:SS"` into seconds past midnight, validating ranges. -/
def parseClock (s : String) : Option Nat :=
  match (jsSplit ':' s).map (fun t => digitsToNat t.data) with
  | [some h, some mi, some sec] =>
    if h ≤ 23 ∧ mi ≤ 59 ∧ sec ≤ 59 then some (h * 3600 + mi * 60 + sec) else none
  | _ => none

/-- Evaluate `new Date(str)` for `"Mon Day HH:MM:SS Year"` strings to
milliseconds since the epoch; `none` is JS `Invalid Date`. -/
def parseDateString (s : String) : Option Int :=
  match (jsSplit ' ' s).filter (fun t => t ≠ "") with
  | [mon, day, clock, year] =>
    match monthNumber mon, digitsToNat day.data, parseClock clock, digitsToNat year.data with
    | some m, some d, some secs, some y =>
      some ((daysFromCivil (y : Int) m (d : Int)) * 86400000 + (secs : Int) * 1000)
    | _, _, _, _ => none
  | _ => none

/-- out.js `parseTimestamp`: append the current year and parse; empty input or
a parse failure yields the epoch sentinel. -/
def parseTimestamp (currentYear : Nat) (timestampStr : String) : Int :=
  if jsTrim timestampStr = "" then 0
  else
    let dateStr := jsTrim timestampStr ++ " " ++ toString currentYear
    match parseDateString dateStr with
    | some ms => ms
    | none => 0

/-! ## Data model -/

/-- A parsed log line (out.js pushes these objects in `parseShellOutput`). -/
structure LogEvent where
  type : String
  timestamp : Int
  url : String
  address : String
  deriving DecidableEq, Repr

/-- A deduplicated traffic record (the "lambda"/"target_object" of out.js):
`category` is the Owner column, `data` the Timezone column. -/
structure TrafficRecord where
  url : String
  address : String
  firstTimestamp : Int
  lastTimestamp : Int
  frequency : Nat
  category : String
  data : String
  type : String
  deriving DecidableEq, Repr

/-! ## Line parser (`parseShellOutput`, out.js lines 294-343) -/

/-- The branch of `parseShellOutput` that consumes the split fields of one
line (field 0 = kind, field 1 = timestamp, field 2 = domain or IP; further
fields are not destructured). -/
def parseFields (currentYear : Nat) (parts : List String) : Option LogEvent :=
  match parts with
  | p0 :: p1 :: p2 :: _ =>
    if p0 = "DNS" then
      some { type := "DNS", timestamp := parseTimestamp currentYear p1,
             url := jsOr p2 "", address := "" }
    else if p0 = "HTTPS" ∨ p0 = "HTTP" ∨ p0 = "PING" then
      some { type := p0, timestamp := parseTimestamp currentYear p1,
             url := "", address := jsOr p2 "" }
    else none
  | _ => none

/-- One iteration of the `parseShellOutput` loop: trim the line, drop blanks,
split on `|`, require at least 3 fields, and build the event. -/
def parseLine (currentYear : Nat) (rawLine : String) : Option LogEvent :=
  let line := jsTrim rawLine
  if line = "" then none
  else parseFields currentYear (jsSplit '|' line)

/-- out.js `parseShellOutput`: empty/whitespace output yields no events,
otherwise the trimmed output is split into lines and each line parsed. -/
def parseShellOutput (currentYear : Nat) (output : String) : List LogEvent :=
  if jsTrim output = "" then []
  else (jsSplit '\n' (jsTrim output)).filterMap (parseLine currentYear)

/-! ## Aggregation engine (`processLogs` / `updateExistingRecord`,
out.js lines 378-462) -/

/-- The fresh temporary record built for one log line inside `processLogs`. -/
def mkLambda (log : LogEvent) : TrafficRecord :=
  { url := log.url, address := log.address,
    firstTimestamp := log.timestamp, lastTimestamp := log.timestamp,
    frequency := 1, category := "", data := "", type := log.type }

/-- out.js `updateExistingRecord` (the merge): keep the earliest first
timestamp, the latest last timestamp, bump the frequency, and fill a blank
url/address from the new entry. -/
def updateExistingRecord (existingRecord newEntry : TrafficRecord) : TrafficRecord :=
  let r1 := if newEntry.firstTimestamp < existingRecord.firstTimestamp
            then { existingRecord with firstTimestamp := newEntry.firstTimestamp }
            else existingRecord
  let r2 := if r1.lastTimestamp < newEntry.lastTimestamp
            then { r1 with lastTimestamp := newEntry.lastTimestamp }
            else r1
  let r3 := { r2 with frequency := r2.frequency + 1 }
  let r4 := if r3.url = "" ∧ newEntry.url ≠ ""
            then { r3 with url := newEntry.url }
            else r3
  if r4.address = "" ∧ newEntry.address ≠ ""
  then { r4 with address := newEntry.address }
  else r4

/-- The dedup key of an event, `lambda.url || lambda.address`. -/
def eventKey (e : LogEvent) : String := jsOr e.url e.address

/-- The dedup key of a record, `url` if non-empty else `address`. -/
def recordKey (r : TrafficRecord) : String := jsOr r.url r.address

/-- `recordMap.hasOwnProperty(key)` on the association-list model. -/
def hasKey (m : List (String × TrafficRecord)) (k : String) : Bool :=
  m.any (fun p => p.1 = k)

/-- In-place update of `recordMap[key]` on the association-list model. -/
def updateKey (m : List (String × TrafficRecord)) (k : String)
    (f : TrafficRecord → TrafficRecord) : List (String × TrafficRecord) :=
  m.map (fun p => if p.1 = k then (p.1, f p.2) else p)

/-- The loop of out.js `processLogs` over the record map. -/
def processLogsAux (m : List (String × TrafficRecord)) :
    List LogEvent → List (String × TrafficRecord)
  | [] => m
  | log :: rest =>
    let lambda := mkLambda log
    let key := jsOr lambda.url lambda.address
    if key = "" then processLogsAux m rest
    else if hasKey m key then
      processLogsAux (updateKey m key (fun r => updateExistingRecord r lambda)) rest
    else
      processLogsAux (m ++ [(key, lambda)]) rest

/-- out.js `processLogs`: fold the events through the record map, then read the
records back off. -/
def processLogs (rawLogs : List LogEvent) : List TrafficRecord :=
  (processLogsAux [] rawLogs).map Prod.snd

/-! ## Reverse DNS enrichment (out.js lines 473-544)

The caches are JS objects: an association list models them, a present key with
value `none` being the explicit `null` negative marker.  A synchronous pass
returns the updated records, the updated in-flight set, and the list of
external `host` invocations it dispatched. -/

/-- First-match association-list lookup, `obj.hasOwnProperty(k)` returning the
stored value. -/
def assocGet {α : Type} (m : List (String × α)) (k : String) : Option α :=
  match m with
  | [] => none
  | p :: rest => if p.1 = k then some p.2 else assocGet rest k

/-- The synchronous part of out.js `performReverseDns` for one triggering
record: cache hit applies a truthy cached hostname to the triggering record;
a key already in flight is skipped; otherwise the key is marked in flight and
an external lookup is dispatched. -/
def performReverseDnsSync (cache : List (String × Option String))
    (pending : List String) (r : TrafficRecord) :
    TrafficRecord × List String × List String :=
  match assocGet cache r.address with
  | some cached =>
    match cached with
    | some h => if h ≠ "" then ({ r with url := h }, pending, []) else (r, pending, [])
    | none => (r, pending, [])
  | none =>
    if r.address ∈ pending then (r, pending, [])
    else (r, pending ++ [r.address], [r.address])

/-- out.js `enrichWithReverseDns`: one pass over the records, triggering
`performReverseDns` for every record with an address but no url. -/
def enrichWithReverseDns (cache : List (String × Option String))
    (pending : List String) :
    List TrafficRecord → List TrafficRecord × List String × List String
  | [] => ([], pending, [])
  | r :: rest =>
    if r.address ≠ "" ∧ r.url = "" then
      let step := performReverseDnsSync cache pending r
      let tail := enrichWithReverseDns cache step.2.1 rest
      (step.1 :: tail.1, tail.2.1, step.2.2 ++ tail.2.2)
    else
      let tail := enrichWithReverseDns cache pending rest
      (r :: tail.1, tail.2.1, tail.2.2)

/-- The fan-out in the `host` success callback (out.js lines 524-528): fill the
resolved hostname into every current record with that address and no url. -/
def reverseDnsApply (ipAddress hostname : String)
    (records : List TrafficRecord) : List TrafficRecord :=
  records.map (fun r =>
    if r.address = ipAddress ∧ r.url = "" then { r with url := hostname } else r)

/-! ## IP-info enrichment (out.js lines 598-741) -/

/-- The parsed `ipinfo --json` result retained by out.js (absent fields become
empty strings). -/
structure IpInfoResult where
  ip : String
  hostname : String
  org : String
  timezone : String
  deriving DecidableEq, Repr

/-- The body of the `applyIpInfoResult` loop for one record: on a key match,
fill each of url, address, category (Owner) and data (Timezone) only when the
field is still empty and the result supplies a value. -/
def applyIpInfoOne (lookupKey : String) (result : IpInfoResult)
    (rec : TrafficRecord) : TrafficRecord :=
  if rec.address = lookupKey ∨ rec.url = lookupKey then
    let rec1 := if rec.url = "" ∧ result.hostname ≠ ""
                then { rec with url := result.hostname } else rec
    let rec2 := if rec1.address = "" ∧ result.ip ≠ ""
                then { rec1 with address := result.ip } else rec1
    let rec3 := if rec2.category = "" ∧ result.org ≠ ""
                then { rec2 with category := result.org } else rec2
    if rec3.data = "" ∧ result.timezone ≠ ""
    then { rec3 with data := result.timezone } else rec3
  else rec

/-- out.js `applyIpInfoResult`: apply a result to all records matching the
lookup key. -/
def applyIpInfoResult (lookupKey : String) (result : IpInfoResult)
    (records : List TrafficRecord) : List TrafficRecord :=
  records.map (applyIpInfoOne lookupKey result)

/-- The loop of out.js `enrichWithIpInfo`, indexed by position `i` with fuel
(the list length, preserved by `applyIpInfoResult`).  A cached positive result
is applied to the whole current record set; a cached negative is skipped; an
uncached key ends the loop (`break`) when the daily count has reached the
limit and is otherwise dispatched as an external lookup.  The second component
collects the dispatched lookup keys. -/
def enrichIpInfoGo (cache : List (String × Option IpInfoResult))
    (limit count : Int) :
    Nat → Nat → List TrafficRecord → List String →
    List TrafficRecord × List String
  | 0, _, records, calls => (records, calls)
  | n + 1, i, records, calls =>
    match records[i]? with
    | none => (records, calls)
    | some record =>
      let lookupKey := jsOr record.address record.url
      if lookupKey ≠ "" ∧ record.category = "" then
        match assocGet cache lookupKey with
        | some cachedVal =>
          match cachedVal with
          | some res =>
            enrichIpInfoGo cache limit count n (i + 1)
              (applyIpInfoResult lookupKey res records) calls
          | none => enrichIpInfoGo cache limit count n (i + 1) records calls
        | none =>
          if limit ≤ count then (records, calls)
          else enrichIpInfoGo cache limit count n (i + 1) records (calls ++ [lookupKey])
      else enrichIpInfoGo cache limit count n (i + 1) records calls

/-- out.js `enrichWithIpInfo`: the synchronous pass over the current records
(the staggered `setTimeout` dispatches are the returned call list). -/
def enrichWithIpInfo (cache : List (String × Option IpInfoResult))
    (limit count : Int) (records : List TrafficRecord) :
    List TrafficRecord × List String :=
  enrichIpInfoGo cache limit count records.length 0 records []

/-- The decision a fired `performIpInfoLookup` makes before spawning. -/
inductive IpLookupAction where
  | applyCached (res : IpInfoResult)
  | skip
  | spawnLookup
  deriving DecidableEq, Repr

/-- The guard chain of out.js `performIpInfoLookup` (lines 654-678): cache hit
applies a truthy cached result, a falsy (negative) one returns; an in-flight
key is skipped; the daily limit being reached skips; otherwise the external
`ipinfo` command is spawned. -/
def performIpInfoLookupAction (cache : List (String × Option IpInfoResult))
    (pending : List String) (limit count : Int) (lookupKey : String) :
    IpLookupAction :=
  match assocGet cache lookupKey with
  | some cachedVal =>
    match cachedVal with
    | some res => .applyCached res
    | none => .skip
  | none =>
    if lookupKey ∈ pending then .skip
    else if limit ≤ count then .skip
    else .spawnLookup

/-! ## Quota tracker (out.js lines 557-595) -/

/-- JS `parseInt(s, 10)`: skip leading whitespace, optional sign, then the
leading run of digits; `none` is `NaN`. -/
def jsParseInt (s : String) : Option Int :=
  let cs := s.data.dropWhile Char.isWhitespace
  match cs with
  | '-' :: rest => (digitsToNat (rest.takeWhile Char.isDigit)).map (fun n => -(n : Int))
  | '+' :: rest => (digitsToNat (rest.takeWhile Char.isDigit)).map (fun n => (n : Int))
  | _ => (digitsToNat (cs.takeWhile Char.isDigit)).map (fun n => (n : Int))

/-- out.js `loadIpInfoUsage` as a function of the file read outcome (`none`
models the read failing / the file being absent) and the actual current day
string: the resulting in-memory daily count. -/
def loadIpInfoUsage (content : Option String) (todayStr : String) : Int :=
  match content with
  | none => 0
  | some c =>
    if jsTrim c = "" then 0
    else
      match jsSplit '|' (jsTrim c) with
      | [d, cnt] => if d = todayStr then (jsParseInt cnt).getD 0 else 0
      | _ => 0

/-! ## Sort engine (`sortRecords`, out.js lines 751-792) -/

/-- The dynamic value `a[column]` can be a string, a Date, a number, or
`undefined` for an unknown column name. -/
inductive JsValue where
  | str (s : String)
  | date (ms : Int)
  | num (n : Nat)
  | undefinedVal
  deriving DecidableEq, Repr

/-- `a[column]` for a traffic record. -/
def recordField (r : TrafficRecord) : String → JsValue
  | "url" => .str r.url
  | "address" => .str r.address
  | "firstTimestamp" => .date r.firstTimestamp
  | "lastTimestamp" => .date r.lastTimestamp
  | "frequency" => .num r.frequency
  | "category" => .str r.category
  | "data" => .str r.data
  | "type" => .str r.type
  | _ => .undefinedVal

/-- The comparator's emptiness test `v === "" || v === null || v === undefined`. -/
def isEmptyVal : JsValue → Bool
  | .str s => s = ""
  | .undefinedVal => true
  | _ => false

/-- `aVal instanceof Date ? aVal.getTime() : 0`. -/
def valToMs : JsValue → Int
  | .date ms => ms
  | _ => 0

/-- `Number(aVal)` on the frequency column. -/
def valToNum : JsValue → Int
  | .num n => (n : Int)
  | _ => 0

/-- `String(aVal).toLowerCase()`; only string values reach this branch. -/
def valToStr : JsValue → String
  | .str s => jsToLower s
  | _ => ""

/-- The non-empty-vs-non-empty comparison of the out.js comparator, before the
direction flip: timestamps by instant, frequency numerically, everything else
as case-insensitive strings. -/
def compareVals (column : String) (aVal bVal : JsValue) : Int :=
  if column = "firstTimestamp" ∨ column = "lastTimestamp" then
    valToMs aVal - valToMs bVal
  else if column = "frequency" then
    valToNum aVal - valToNum bVal
  else
    let aStr := valToStr aVal
    let bStr := valToStr bVal
    if aStr < bStr then -1 else if bStr < aStr then 1 else 0

/-- The full out.js sort comparator: empties to the bottom regardless of
direction, then the typed comparison, sign-flipped for descending order. -/
def jsCompare (column direction : String) (a b : TrafficRecord) : Int :=
  let aVal := recordField a column
  let bVal := recordField b column
  let aEmpty := isEmptyVal aVal
  let bEmpty := isEmptyVal bVal
  if aEmpty ∧ bEmpty then 0
  else if aEmpty then 1
  else if bEmpty then -1
  else
    let result := compareVals column aVal bVal
    if direction = "asc" then result else -result

/-- out.js `sortRecords`: a stable sort of the records by the comparator
(`a` precedes `b` when the comparator does not order `b` strictly first). -/
def sortRecords (column direction : String)
    (records : List TrafficRecord) : List TrafficRecord :=
  records.mergeSort (fun a b => jsCompare column direction a b ≤ 0)

/-! ## Fetch cycle (`fetchAndRenderData`, out.js lines 228-283)

The DOM pieces are reduced to the state they set: the loading spinner flag and
the error banner text.  The shell invocation's outcome is the injected
`Except` argument; the success branch replaces the record set and runs the
synchronous parts of both enrichment passes, the failure branch shows one
composed error message. -/

structure AppState where
  trafficRecords : List TrafficRecord
  isFetching : Bool
  loadingShown : Bool
  errorShown : Option String
  reverseDnsCache : List (String × Option String)
  pendingDnsLookups : List String
  ipInfoCache : List (String × Option IpInfoResult)
  pendingIpInfoLookups : List String
  ipInfoDailyLimit : Int
  ipInfoDailyCount : Int
  deriving Repr

/-- out.js `fetchAndRenderData` over an injected spawn outcome. -/
def fetchAndRenderData (currentYear : Nat) (st : AppState)
    (outcome : Except String String) : AppState :=
  if st.isFetching then st
  else
    let st1 := { st with isFetching := true }
    let st2 := if st1.trafficRecords.length = 0
               then { st1 with loadingShown := true } else st1
    let st3 := { st2 with errorShown := none }
    match outcome with
    | .ok output =>
      let rawLogs := parseShellOutput currentYear output
      let records := processLogs rawLogs
      let dnsPass := enrichWithReverseDns st3.reverseDnsCache
        st3.pendingDnsLookups records
      let ipPass := enrichWithIpInfo st3.ipInfoCache st3.ipInfoDailyLimit
        st3.ipInfoDailyCount dnsPass.1
      { st3 with trafficRecords := ipPass.1, pendingDnsLookups := dnsPass.2.1,
                 loadingShown := false, isFetching := false }
    | .error errMsg =>
      { st3 with errorShown := some ("Failed to fetch traffic data: " ++ errMsg),
                 loadingShown := false, isFetching := false }

/-! ## Facts about the merge step -/

/-- Field-level description of `updateExistingRecord`. -/
theorem updateExistingRecord_spec (r n : TrafficRecord) :
    (updateExistingRecord r n).firstTimestamp = min n.firstTimestamp r.firstTimestamp ∧
    (updateExistingRecord r n).lastTimestamp = max r.lastTimestamp n.lastTimestamp ∧
    (updateExistingRecord r n).frequency = r.frequency + 1 ∧
    (updateExistingRecord r n).url = (if r.url = "" ∧ n.url ≠ "" then n.url else r.url) ∧
    (updateExistingRecord r n).address =
      (if r.address = "" ∧ n.address ≠ "" then n.address else r.address) ∧
    (updateExistingRecord r n).category = r.category ∧
    (updateExistingRecord r n).data = r.data ∧
    (updateExistingRecord r n).type = r.type := by
  unfold updateExistingRecord
  dsimp only
  split_ifs <;> simp_all [min_def, max_def] <;> omega

theorem mkLambda_timestamps (e : LogEvent) :
    (mkLambda e).firstTimestamp = e.timestamp ∧ (mkLambda e).lastTimestamp = e.timestamp :=
  ⟨rfl, rfl⟩

/-- C2: folding events into a record keeps `firstTimestamp ≤ lastTimestamp`
after every merge and tightens both monotonically: the first timestamp never
increases and the last never decreases. -/
theorem c2_merge_keeps_and_tightens_timestamps (events : List LogEvent)
    (r : TrafficRecord) (h : r.firstTimestamp ≤ r.lastTimestamp) :
    (List.foldl (fun acc e => updateExistingRecord acc (mkLambda e)) r events).firstTimestamp ≤
      (List.foldl (fun acc e => updateExistingRecord acc (mkLambda e)) r events).lastTimestamp ∧
    (List.foldl (fun acc e => updateExistingRecord acc (mkLambda e)) r events).firstTimestamp ≤
      r.firstTimestamp ∧
    r.lastTimestamp ≤
      (List.foldl (fun acc e => updateExistingRecord acc (mkLambda e)) r events).lastTimestamp := by
  induction events generalizing r with
  | nil => exact ⟨h, le_refl _, le_refl _⟩
  | cons e es ih =>
    have hs := updateExistingRecord_spec r (mkLambda e)
    have hfirst : (updateExistingRecord r (mkLambda e)).firstTimestamp =
        min e.timestamp r.firstTimestamp := by
      rw [hs.1, (mkLambda_timestamps e).1]
    have hlast : (updateExistingRecord r (mkLambda e)).lastTimestamp =
        max r.lastTimestamp e.timestamp := by
      rw [hs.2.1, (mkLambda_timestamps e).2]
    have h' : (updateExistingRecord r (mkLambda e)).firstTimestamp ≤
        (updateExistingRecord r (mkLambda e)).lastTimestamp := by
      rw [hfirst, hlast]
      exact le_trans (min_le_left _ _) (le_max_right _ _)
    have := ih (updateExistingRecord r (mkLambda e)) h'
    refine ⟨this.1, le_trans this.2.1 ?_, le_trans ?_ this.2.2⟩
    · rw [hfirst]; exact min_le_right _ _
    · rw [hlast]; exact le_max_left _ _

/-- Concrete record for the C2 witness. -/
def c2Rec : TrafficRecord :=
  { url := "a.com", address := "", firstTimestamp := 1, lastTimestamp := 5,
    frequency := 1, category := "", data := "", type := "DNS" }

/-- Concrete events for the C2 witness. -/
def c2Events : List LogEvent :=
  [{ type := "DNS", timestamp := 3, url := "a.com", address := "" },
   { type := "DNS", timestamp := 9, url := "a.com", address := "" }]

theorem c2_witness :
    (List.foldl (fun acc e => updateExistingRecord acc (mkLambda e)) c2Rec c2Events).firstTimestamp ≤
      (List.foldl (fun acc e => updateExistingRecord acc (mkLambda e)) c2Rec c2Events).lastTimestamp ∧
    (List.foldl (fun acc e => updateExistingRecord acc (mkLambda e)) c2Rec c2Events).firstTimestamp ≤
      c2Rec.firstTimestamp ∧
    c2Rec.lastTimestamp ≤
      (List.foldl (fun acc e => updateExistingRecord acc (mkLambda e)) c2Rec c2Events).lastTimestamp :=
  c2_merge_keeps_and_tightens_timestamps c2Events c2Rec (by decide)

/-! ## C8: quota load semantics -/

/-- C8: loading a persisted quota blob yields count 0 whenever the stored day
differs from the actual current day; the stored count is used only when the
stored day equals the current day. -/
theorem c8_load_resets_on_stale_day (c today : String) :
    (∀ d cnt, jsSplit '|' (jsTrim c) = [d, cnt] → d ≠ today →
        loadIpInfoUsage (some c) today = 0) ∧
    (∀ d cnt, jsSplit '|' (jsTrim c) = [d, cnt] → d = today →
        loadIpInfoUsage (some c) today = (jsParseInt cnt).getD 0) ∧
    (loadIpInfoUsage (some c) today ≠ 0 →
        ∃ cnt, jsSplit '|' (jsTrim c) = [today, cnt]) ∧
    loadIpInfoUsage none today = 0 := by
  have hload : loadIpInfoUsage (some c) today =
      (if jsTrim c = "" then 0 else
        match jsSplit '|' (jsTrim c) with
        | [d, cnt] => if d = today then (jsParseInt cnt).getD 0 else 0
        | _ => 0) := rfl
  have hsplit_ne : ∀ d cnt : String, jsSplit '|' (jsTrim c) = [d, cnt] → jsTrim c ≠ "" := by
    intro d cnt hsplit h0
    rw [h0, show jsSplit '|' "" = [""] from rfl] at hsplit
    simp at hsplit
  refine ⟨?_, ?_, ?_, rfl⟩
  · intro d cnt hsplit hne
    rw [hload, if_neg (hsplit_ne d cnt hsplit), hsplit]
    simp [hne]
  · intro d cnt hsplit heq
    rw [hload, if_neg (hsplit_ne d cnt hsplit), hsplit]
    simp [heq]
  · intro hne
    rw [hload] at hne
    by_cases h0 : jsTrim c = ""
    · simp [h0] at hne
    · rw [if_neg h0] at hne
      rcases hs : jsSplit '|' (jsTrim c) with _ | ⟨d, tl⟩
      · rw [hs] at hne; exact absurd rfl hne
      rcases tl with _ | ⟨cnt, tl2⟩
      · rw [hs] at hne; exact absurd rfl hne
      rcases tl2 with _ | ⟨x, tl3⟩
      · rw [hs] at hne
        dsimp only at hne
        by_cases hd : d = today
        · subst hd; exact ⟨cnt, rfl⟩
        · rw [if_neg hd] at hne
          exact absurd rfl hne
      · rw [hs] at hne; exact absurd rfl hne

theorem c8_witness :
    loadIpInfoUsage (some "2024-01-01|999") "2024-01-02" = 0 :=
  (c8_load_resets_on_stale_day "2024-01-01|999" "2024-01-02").1 "2024-01-01" "999"
    (by decide) (by decide)

/-! ## C9: fetch failure path -/

/-- C9: a failed log-collection spawn surfaces one composed human-readable
error message and leaves the in-memory record set untouched. -/
theorem c9_fetch_error_preserves_records (year : Nat) (st : AppState) (msg : String)
    (h : st.isFetching = false) :
    (fetchAndRenderData year st (.error msg)).trafficRecords = st.trafficRecords ∧
    (fetchAndRenderData year st (.error msg)).errorShown =
      some ("Failed to fetch traffic data: " ++ msg) ∧
    (fetchAndRenderData year st (.error msg)).isFetching = false := by
  unfold fetchAndRenderData
  rw [if_neg (by simp [h])]
  dsimp only
  split_ifs <;> exact ⟨rfl, rfl, rfl⟩

/-- Concrete state for the C9 witness. -/
def c9State : AppState :=
  { trafficRecords := [c2Rec], isFetching := false, loadingShown := false,
    errorShown := none, reverseDnsCache := [], pendingDnsLookups := [],
    ipInfoCache := [], pendingIpInfoLookups := [], ipInfoDailyLimit := 1000,
    ipInfoDailyCount := 0 }

theorem c9_witness :
    (fetchAndRenderData 2026 c9State (.error "Permission denied")).trafficRecords =
      c9State.trafficRecords ∧
    (fetchAndRenderData 2026 c9State (.error "Permission denied")).errorShown =
      some ("Failed to fetch traffic data: " ++ "Permission denied") ∧
    (fetchAndRenderData 2026 c9State (.error "Permission denied")).isFetching = false :=
  c9_fetch_error_preserves_records 2026 c9State "Permission denied" rfl

/-! ## C10: the parser consumes only the first three fields -/

/-- C10: a three-field DNS line (no query-type field) is accepted and produces
the same event as the four-field form; for every kind, fields beyond the three
consumed ones are ignored. -/
theorem c10_extra_fields_ignored :
    (∀ year t d, parseFields year ["DNS", t, d] =
        some { type := "DNS", timestamp := parseTimestamp year t,
               url := jsOr d "", address := "" }) ∧
    (∀ year t d q, parseFields year ["DNS", t, d, q] = parseFields year ["DNS", t, d]) ∧
    (∀ year p0 p1 p2 rest rest2, parseFields year (p0 :: p1 :: p2 :: rest) =
        parseFields year (p0 :: p1 :: p2 :: rest2)) ∧
    parseLine 2026 "DNS|Feb 14 15:54:10|github.com" =
      parseLine 2026 "DNS|Feb 14 15:54:10|github.com|A" ∧
    (parseLine 2026 "DNS|Feb 14 15:54:10|github.com").isSome = true := by
  refine ⟨fun year t d => rfl, fun year t d q => rfl,
    fun year p0 p1 p2 rest rest2 => rfl, by decide, by decide⟩

/-! ## C5: at most one of url/address is non-empty; both-empty events occur -/

theorem parseFields_at_most_one_key (year : Nat) (parts : List String) (e : LogEvent)
    (h : parseFields year parts = some e) : e.url = "" ∨ e.address = "" := by
  unfold parseFields at h
  rcases parts with _ | ⟨p0, _ | ⟨p1, _ | ⟨p2, rest⟩⟩⟩
  · exact absurd h (by simp)
  · exact absurd h (by simp)
  · exact absurd h (by simp)
  · dsimp only at h
    split_ifs at h with h1 h2
    case _ => rcases Option.some.inj h with rfl; exact Or.inr rfl
    case _ => rcases Option.some.inj h with rfl; exact Or.inl rfl

/-- C5 (amended): every event the parser constructs has at most one of
url/address non-empty (never both non-empty); an empty field 2 produces an
event with both empty. -/
theorem c5_amended_at_most_one_key (year : Nat) (output : String) (e : LogEvent)
    (h : e ∈ parseShellOutput year output) : e.url = "" ∨ e.address = "" := by
  unfold parseShellOutput at h
  split_ifs at h
  · exact absurd h (by simp)
  · rcases List.mem_filterMap.mp h with ⟨line, _, hline⟩
    unfold parseLine at hline
    dsimp only at hline
    split_ifs at hline
    exact parseFields_at_most_one_key year _ e hline

theorem c5_witness :
    ({ type := "HTTPS", timestamp := 0, url := "", address := "1.2.3.4" } : LogEvent).url = "" ∨
    ({ type := "HTTPS", timestamp := 0, url := "", address := "1.2.3.4" } : LogEvent).address = "" :=
  c5_amended_at_most_one_key 2026 "HTTPS|zzz|1.2.3.4" _ (by decide)

/-- C5 counterexample: a DNS line whose domain field is the empty string makes
the parser construct an event with both url and address empty, refuting
"it never constructs an event with both empty". -/
theorem c5_counterexample_empty_domain_line :
    ∃ e ∈ parseShellOutput 2026 "DNS|Feb 14 15:54:10||A",
      e.url = "" ∧ e.address = "" := by
  decide

/-! ## C6: enrichment only fills empty fields -/

/-- One enrichment application never overwrites these four non-empty fields. -/
def preservesNonEmpty (r r' : TrafficRecord) : Prop :=
  (r.url ≠ "" → r'.url = r.url) ∧ (r.address ≠ "" → r'.address = r.address) ∧
  (r.category ≠ "" → r'.category = r.category) ∧ (r.data ≠ "" → r'.data = r.data)

theorem preservesNonEmpty_refl (r : TrafficRecord) : preservesNonEmpty r r :=
  ⟨fun _ => rfl, fun _ => rfl, fun _ => rfl, fun _ => rfl⟩

theorem preservesNonEmpty_trans {a b c : TrafficRecord}
    (h1 : preservesNonEmpty a b) (h2 : preservesNonEmpty b c) :
    preservesNonEmpty a c := by
  refine ⟨fun h => ?_, fun h => ?_, fun h => ?_, fun h => ?_⟩
  · rw [h2.1 (h1.1 h ▸ h), h1.1 h]
  · rw [h2.2.1 (h1.2.1 h ▸ h), h1.2.1 h]
  · rw [h2.2.2.1 (h1.2.2.1 h ▸ h), h1.2.2.1 h]
  · rw [h2.2.2.2 (h1.2.2.2 h ▸ h), h1.2.2.2 h]

theorem forall₂_map_self {α : Type} (f : α → α) (R : α → α → Prop)
    (h : ∀ a, R a (f a)) : ∀ l : List α, List.Forall₂ R l (l.map f)
  | [] => List.Forall₂.nil
  | a :: t => List.Forall₂.cons (h a) (forall₂_map_self f R h t)

theorem forall₂_preserves_trans :
    ∀ {l1 l2 l3 : List TrafficRecord}, List.Forall₂ preservesNonEmpty l1 l2 →
      List.Forall₂ preservesNonEmpty l2 l3 → List.Forall₂ preservesNonEmpty l1 l3 := by
  intro l1 l2 l3 h12
  induction h12 generalizing l3 with
  | nil => intro h23; cases h23; exact List.Forall₂.nil
  | cons hab htail ih =>
    intro h23
    cases h23 with
    | cons hbc h23tail =>
      exact List.Forall₂.cons (preservesNonEmpty_trans hab hbc) (ih h23tail)

theorem applyIpInfoOne_preserves (k : String) (res : IpInfoResult)
    (r : TrafficRecord) : preservesNonEmpty r (applyIpInfoOne k res r) := by
  unfold applyIpInfoOne preservesNonEmpty
  dsimp only
  split_ifs <;> simp_all

theorem reverseDnsApply_preserves (ip hostname : String) (records : List TrafficRecord) :
    List.Forall₂ preservesNonEmpty records (reverseDnsApply ip hostname records) := by
  refine forall₂_map_self _ _ (fun r => ?_) records
  unfold preservesNonEmpty
  split_ifs with hg <;> simp_all

/-- The synchronous reverse-DNS step only ever touches `url`. -/
theorem performReverseDnsSync_fields (cache : List (String × Option String))
    (pending : List String) (r : TrafficRecord) :
    (performReverseDnsSync cache pending r).1.address = r.address ∧
    (performReverseDnsSync cache pending r).1.category = r.category ∧
    (performReverseDnsSync cache pending r).1.data = r.data := by
  unfold performReverseDnsSync
  rcases assocGet cache r.address with _ | ⟨_ | h⟩ <;> dsimp only <;>
    first
    | (split_ifs <;> exact ⟨rfl, rfl, rfl⟩)
    | exact ⟨rfl, rfl, rfl⟩

theorem enrichWithReverseDns_preserves (cache : List (String × Option String)) :
    ∀ (records : List TrafficRecord) (pending : List String),
      List.Forall₂ preservesNonEmpty records
        (enrichWithReverseDns cache pending records).1 := by
  intro records
  induction records with
  | nil => intro pending; exact List.Forall₂.nil
  | cons r rest ih =>
    intro pending
    unfold enrichWithReverseDns
    dsimp only
    split_ifs with hq
    · refine List.Forall₂.cons ?_ (ih _)
      have hf := performReverseDnsSync_fields cache pending r
      exact ⟨fun hu => (hu hq.2).elim, fun _ => hf.1, fun _ => hf.2.1, fun _ => hf.2.2⟩
    · exact List.Forall₂.cons (preservesNonEmpty_refl r) (ih _)

theorem enrichIpInfoGo_preserves (cache : List (String × Option IpInfoResult))
    (limit count : Int) :
    ∀ (n i : Nat) (records : List TrafficRecord) (calls : List String),
      List.Forall₂ preservesNonEmpty records
        (enrichIpInfoGo cache limit count n i records calls).1 := by
  intro n
  induction n with
  | zero =>
    intro i records calls
    exact List.forall₂_same.mpr (fun r _ => preservesNonEmpty_refl r)
  | succ n ih =>
    intro i records calls
    unfold enrichIpInfoGo
    split
    · exact List.forall₂_same.mpr (fun r _ => preservesNonEmpty_refl r)
    · rename_i record hrec
      dsimp only
      by_cases hq : jsOr record.address record.url ≠ "" ∧ record.category = ""
      · rw [if_pos hq]
        split
        · split
          · exact forall₂_preserves_trans
              (forall₂_map_self _ _ (applyIpInfoOne_preserves _ _) records) (ih _ _ _)
          · exact ih _ _ _
        · split_ifs
          · exact List.forall₂_same.mpr (fun r _ => preservesNonEmpty_refl r)
          · exact ih _ _ _
      · rw [if_neg hq]
        exact ih _ _ _

/-- C6: every enrichment application — the IP-info fan-out, the asynchronous
reverse-DNS fan-out, the synchronous reverse-DNS pass and the IP-info pass —
only fills currently-empty fields: it never overwrites a non-empty url,
address, owner (category) or timezone (data) field. -/
theorem c6_enrichment_never_overwrites (k ip hostname : String) (res : IpInfoResult)
    (cache : List (String × Option String)) (pending : List String)
    (ipCache : List (String × Option IpInfoResult)) (limit count : Int)
    (records rs2 rs3 rs4 : List TrafficRecord) :
    List.Forall₂ preservesNonEmpty records (applyIpInfoResult k res records) ∧
    List.Forall₂ preservesNonEmpty rs2 (reverseDnsApply ip hostname rs2) ∧
    List.Forall₂ preservesNonEmpty rs3 (enrichWithReverseDns cache pending rs3).1 ∧
    List.Forall₂ preservesNonEmpty rs4 (enrichWithIpInfo ipCache limit count rs4).1 :=
  ⟨forall₂_map_self _ _ (applyIpInfoOne_preserves k res) records,
   reverseDnsApply_preserves ip hostname rs2,
   enrichWithReverseDns_preserves cache rs3 pending,
   enrichIpInfoGo_preserves ipCache limit count rs4.length 0 rs4 []⟩

/-! ## C3: cached results fan out synchronously, with no external call -/

/-- The calls a reverse-DNS step dispatches: none, or exactly the uncached
address. -/
theorem performReverseDnsSync_calls (cache : List (String × Option String))
    (pending : List String) (r : TrafficRecord) :
    (performReverseDnsSync cache pending r).2.2 = [] ∨
    ((performReverseDnsSync cache pending r).2.2 = [r.address] ∧
      assocGet cache r.address = none) := by
  unfold performReverseDnsSync
  rcases hca : assocGet cache r.address with _ | cached
  · dsimp only
    split_ifs
    · exact Or.inl rfl
    · exact Or.inr ⟨rfl, rfl⟩
  · rcases cached with _ | h
    · dsimp only
      exact Or.inl rfl
    · dsimp only
      split_ifs <;> exact Or.inl rfl

/-- A pass applies a positive cached hostname to every record with that
address and an empty url. -/
theorem enrichWithReverseDns_applies_cached (cache : List (String × Option String))
    (k h : String) (hk : k ≠ "") (hcache : assocGet cache k = some (some h))
    (hh : h ≠ "") :
    ∀ (records : List TrafficRecord) (pending : List String),
      List.Forall₂ (fun r r' => r.address = k ∧ r.url = "" → r'.url = h)
        records (enrichWithReverseDns cache pending records).1 := by
  intro records
  induction records with
  | nil => intro pending; exact List.Forall₂.nil
  | cons r rest ih =>
    intro pending
    unfold enrichWithReverseDns
    dsimp only
    split_ifs with hq
    · refine List.Forall₂.cons ?_ (ih _)
      rintro ⟨ha, _⟩
      unfold performReverseDnsSync
      rw [ha, hcache]
      dsimp only
      rw [if_pos hh]
    · refine List.Forall₂.cons ?_ (ih _)
      rintro ⟨ha, hu⟩
      exact (hq ⟨by rw [ha]; exact hk, hu⟩).elim

/-- A pass never dispatches an external reverse-DNS call for a key that is
already in the cache. -/
theorem enrichWithReverseDns_no_call_for_cached (cache : List (String × Option String))
    (k : String) (hk : (assocGet cache k).isSome = true) :
    ∀ (records : List TrafficRecord) (pending : List String),
      k ∉ (enrichWithReverseDns cache pending records).2.2 := by
  intro records
  induction records with
  | nil => intro pending; simp [enrichWithReverseDns]
  | cons r rest ih =>
    intro pending
    unfold enrichWithReverseDns
    dsimp only
    split_ifs with hq
    · intro hmem
      rcases List.mem_append.mp hmem with h1 | h2
      · rcases performReverseDnsSync_calls cache pending r with hc | ⟨hc, hnone⟩
        · rw [hc] at h1; exact absurd h1 (List.not_mem_nil k)
        · rw [hc] at h1
          rcases List.mem_singleton.mp h1 with rfl
          rw [hnone] at hk
          exact absurd hk (by simp)
      · exact ih _ h2
    · exact ih _

/-- The IP-info loop's step on a qualifying record whose key holds a positive
cached result: the result is applied to the whole current record set, no call
is dispatched, and the loop moves on. -/
theorem enrichIpInfoGo_cached_step (cache : List (String × Option IpInfoResult))
    (limit count : Int) (n i : Nat) (records : List TrafficRecord)
    (calls : List String) (record : TrafficRecord) (res : IpInfoResult)
    (hrec : records[i]? = some record)
    (hq : jsOr record.address record.url ≠ "" ∧ record.category = "")
    (hcache : assocGet cache (jsOr record.address record.url) = some (some res)) :
    enrichIpInfoGo cache limit count (n + 1) i records calls =
      enrichIpInfoGo cache limit count n (i + 1)
        (applyIpInfoResult (jsOr record.address record.url) res records) calls := by
  conv_lhs => unfold enrichIpInfoGo
  rw [hrec]
  dsimp only
  rw [if_pos hq, hcache]

/-- `applyIpInfoResult` reaches every record, position by position. -/
theorem applyIpInfoResult_every_position (k : String) (res : IpInfoResult)
    (records : List TrafficRecord) (j : Nat) (r : TrafficRecord)
    (hj : records[j]? = some r) :
    (applyIpInfoResult k res records)[j]? = some (applyIpInfoOne k res r) := by
  unfold applyIpInfoResult
  rw [List.getElem?_map, hj]
  rfl

/-- On a matching record, the application fills an empty owner/timezone from
the result. -/
theorem applyIpInfoOne_fills (k : String) (res : IpInfoResult) (r : TrafficRecord)
    (hmatch : r.address = k ∨ r.url = k) :
    (r.category = "" → res.org ≠ "" → (applyIpInfoOne k res r).category = res.org) ∧
    (r.data = "" → res.timezone ≠ "" → (applyIpInfoOne k res r).data = res.timezone) := by
  unfold applyIpInfoOne
  rw [if_pos hmatch]
  dsimp only
  constructor <;> intro h1 h2 <;> split_ifs <;> simp_all

/-- The IP-info loop never dispatches an external call for a cached key. -/
theorem enrichIpInfoGo_no_call_for_cached (cache : List (String × Option IpInfoResult))
    (limit count : Int) (k : String) (hk : (assocGet cache k).isSome = true) :
    ∀ (n i : Nat) (records : List TrafficRecord) (calls : List String),
      k ∉ calls → k ∉ (enrichIpInfoGo cache limit count n i records calls).2 := by
  intro n
  induction n with
  | zero => intro i records calls hc; exact hc
  | succ n ih =>
    intro i records calls hc
    unfold enrichIpInfoGo
    split
    · exact hc
    · rename_i record hrec
      dsimp only
      by_cases hq : jsOr record.address record.url ≠ "" ∧ record.category = ""
      · rw [if_pos hq]
        split
        · split
          · exact ih _ _ _ hc
          · exact ih _ _ _ hc
        · rename_i hnone
          split_ifs
          · exact hc
          · refine ih _ _ _ ?_
            intro hmem
            rcases List.mem_append.mp hmem with h1 | h2
            · exact hc h1
            · rcases List.mem_singleton.mp h2 with rfl
              rw [hnone] at hk
              exact absurd hk (by simp)
      · rw [if_neg hq]
        exact ih _ _ _ hc

/-- C3: in an enrichment pass, a key already cached with a non-negative value
is applied synchronously to every current record matching it — the whole
record set for IP-info, every qualifying record for reverse DNS — and no
external call is issued for that key. -/
theorem c3_cached_applied_to_all_matching_no_call
    (cache : List (String × Option String)) (pending : List String)
    (records : List TrafficRecord) (k h : String)
    (hk : k ≠ "") (hcache : assocGet cache k = some (some h)) (hh : h ≠ "")
    (ipCache : List (String × Option IpInfoResult)) (limit count : Int)
    (n i j : Nat) (ipRecords : List TrafficRecord) (ipCalls : List String)
    (record r2 : TrafficRecord) (res : IpInfoResult) (k2 : String)
    (hrec : ipRecords[i]? = some record)
    (hq : jsOr record.address record.url ≠ "" ∧ record.category = "")
    (hcache2 : assocGet ipCache (jsOr record.address record.url) = some (some res))
    (hj : ipRecords[j]? = some r2)
    (hmatch : r2.address = jsOr record.address record.url ∨
              r2.url = jsOr record.address record.url)
    (hk2 : (assocGet ipCache k2).isSome = true) :
    List.Forall₂ (fun r r' => r.address = k ∧ r.url = "" → r'.url = h)
      records (enrichWithReverseDns cache pending records).1 ∧
    k ∉ (enrichWithReverseDns cache pending records).2.2 ∧
    (enrichIpInfoGo ipCache limit count (n + 1) i ipRecords ipCalls =
      enrichIpInfoGo ipCache limit count n (i + 1)
        (applyIpInfoResult (jsOr record.address record.url) res ipRecords) ipCalls) ∧
    (applyIpInfoResult (jsOr record.address record.url) res ipRecords)[j]? =
      some (applyIpInfoOne (jsOr record.address record.url) res r2) ∧
    (r2.category = "" → res.org ≠ "" →
      (applyIpInfoOne (jsOr record.address record.url) res r2).category = res.org) ∧
    k2 ∉ (enrichWithIpInfo ipCache limit count ipRecords).2 :=
  ⟨enrichWithReverseDns_applies_cached cache k h hk hcache hh records pending,
   enrichWithReverseDns_no_call_for_cached cache k (by rw [hcache]; rfl) records pending,
   enrichIpInfoGo_cached_step ipCache limit count n i ipRecords ipCalls record res
     hrec hq hcache2,
   applyIpInfoResult_every_position _ res ipRecords j r2 hj,
   (applyIpInfoOne_fills _ res r2 hmatch).1,
   enrichIpInfoGo_no_call_for_cached ipCache limit count k2 hk2
     ipRecords.length 0 ipRecords [] (List.not_mem_nil k2)⟩

/-- Concrete reverse-DNS cache for the C3 witness. -/
def c3DnsCache : List (String × Option String) := [("1.1.1.1", some "cdn.example.com")]

/-- Concrete records for the C3 witness (reverse-DNS side). -/
def c3Recs : List TrafficRecord :=
  [{ url := "", address := "1.1.1.1", firstTimestamp := 0, lastTimestamp := 0,
     frequency := 1, category := "", data := "", type := "HTTPS" }]

/-- Concrete IP-info result for the C3 witness. -/
def c3Res : IpInfoResult := { ip := "9.9.9.9", hostname := "", org := "Acme", timezone := "UTC" }

/-- Concrete IP-info cache for the C3 witness. -/
def c3IpCache : List (String × Option IpInfoResult) := [("b.com", some c3Res)]

/-- Concrete qualifying record for the C3 witness (IP-info side). -/
def c3RecB : TrafficRecord :=
  { url := "b.com", address := "", firstTimestamp := 0, lastTimestamp := 0,
    frequency := 1, category := "", data := "", type := "DNS" }

/-- Concrete record list for the C3 witness (IP-info side). -/
def c3IpRecs : List TrafficRecord := [c3RecB]

theorem c3_witness :
    List.Forall₂ (fun r r' => r.address = "1.1.1.1" ∧ r.url = "" → r'.url = "cdn.example.com")
      c3Recs (enrichWithReverseDns c3DnsCache [] c3Recs).1 ∧
    "1.1.1.1" ∉ (enrichWithReverseDns c3DnsCache [] c3Recs).2.2 ∧
    (enrichIpInfoGo c3IpCache 1000 0 (0 + 1) 0 c3IpRecs [] =
      enrichIpInfoGo c3IpCache 1000 0 0 (0 + 1)
        (applyIpInfoResult (jsOr c3RecB.address c3RecB.url) c3Res c3IpRecs) []) ∧
    (applyIpInfoResult (jsOr c3RecB.address c3RecB.url) c3Res c3IpRecs)[0]? =
      some (applyIpInfoOne (jsOr c3RecB.address c3RecB.url) c3Res c3RecB) ∧
    (c3RecB.category = "" → c3Res.org ≠ "" →
      (applyIpInfoOne (jsOr c3RecB.address c3RecB.url) c3Res c3RecB).category = c3Res.org) ∧
    "b.com" ∉ (enrichWithIpInfo c3IpCache 1000 0 c3IpRecs).2 :=
  c3_cached_applied_to_all_matching_no_call c3DnsCache [] c3Recs "1.1.1.1"
    "cdn.example.com" (by decide) (by decide) (by decide) c3IpCache 1000 0 0 0 0
    c3IpRecs [] c3RecB c3RecB c3Res "b.com" (by decide) (by decide) (by decide)
    (by decide) (by decide) (by decide)

/-! ## C4: the quota `break` also stops cached application -/

/-- IP-info result cached for the C4 evaluation. -/
def c4Res : IpInfoResult := { ip := "9.9.9.9", hostname := "", org := "Acme", timezone := "UTC" }

/-- IP-info cache for the C4 evaluation: a positive entry for `"b.com"`. -/
def c4Cache : List (String × Option IpInfoResult) := [("b.com", some c4Res)]

/-- First record: qualifying, uncached key, hit while the daily count is at
the limit. -/
def c4RecA : TrafficRecord :=
  { url := "", address := "7.7.7.7", firstTimestamp := 0, lastTimestamp := 0,
    frequency := 1, category := "", data := "", type := "HTTPS" }

/-- Second record: qualifying and its key `"b.com"` is positively cached. -/
def c4RecB : TrafficRecord :=
  { url := "b.com", address := "", firstTimestamp := 0, lastTimestamp := 0,
    frequency := 1, category := "", data := "", type := "DNS" }

/-- C4, evaluated at the failing input: with the daily count at the limit the
cycle issues no external lookup (as claimed), but the `break` on the first
uncached qualifying record ends the pass, so the positively cached result for
the second qualifying record is never applied — its owner (category) field is
left empty, refuting "cached results still apply normally to every remaining
qualifying record in that same cycle". -/
theorem c4_break_at_limit_skips_remaining_cached :
    (enrichWithIpInfo c4Cache 1000 1000 [c4RecA, c4RecB]).2 = [] ∧
    assocGet c4Cache (jsOr c4RecB.address c4RecB.url) = some (some c4Res) ∧
    c4Res.org ≠ "" ∧
    jsOr c4RecB.address c4RecB.url ≠ "" ∧ c4RecB.category = "" ∧
    (enrichWithIpInfo c4Cache 1000 1000 [c4RecA, c4RecB]).1 = [c4RecA, c4RecB] ∧
    c4RecB.category = "" := by
  decide

/-- With the daily count at or above the limit, an enrichment cycle dispatches
no external IP-info lookup at all. -/
theorem enrichIpInfoGo_at_limit_issues_no_call
    (cache : List (String × Option IpInfoResult)) (limit count : Int)
    (h : limit ≤ count) :
    ∀ (n i : Nat) (records : List TrafficRecord) (calls : List String),
      (enrichIpInfoGo cache limit count n i records calls).2 = calls := by
  intro n
  induction n with
  | zero => intro i records calls; rfl
  | succ n ih =>
    intro i records calls
    unfold enrichIpInfoGo
    split
    · rfl
    · rename_i record hrec
      dsimp only
      by_cases hq : jsOr record.address record.url ≠ "" ∧ record.category = ""
      · rw [if_pos hq]
        split
        · split
          · exact ih _ _ _
          · exact ih _ _ _
        · rw [if_pos h]
      · rw [if_neg hq]
        exact ih _ _ _

/-- A fired `performIpInfoLookup` never spawns once the daily count is at or
above the limit. -/
theorem performIpInfoLookupAction_at_limit_never_spawns
    (cache : List (String × Option IpInfoResult)) (pending : List String)
    (limit count : Int) (lookupKey : String) (h : limit ≤ count) :
    performIpInfoLookupAction cache pending limit count lookupKey ≠
      IpLookupAction.spawnLookup := by
  unfold performIpInfoLookupAction
  split
  · split <;> simp
  · split_ifs <;> simp_all

/-! ## C7: sorting pushes empty values to the bottom in both directions -/

theorem compareVals_swap (column : String) (av bv : JsValue) :
    compareVals column bv av = -compareVals column av bv := by
  unfold compareVals
  split_ifs with h1 h2
  · omega
  · omega
  · dsimp only
    rcases lt_trichotomy (valToStr av) (valToStr bv) with h | h | h
    · simp [h, lt_asymm h]
    · simp [h]
    · simp [h, lt_asymm h]

theorem strCmp_le (x y : String) :
    ((if x < y then (-1 : Int) else if y < x then 1 else 0) ≤ 0) ↔ x ≤ y := by
  split_ifs with h1 h2
  · exact iff_of_true (by omega) (le_of_lt h1)
  · exact iff_of_false (by omega) (not_le.mpr h2)
  · exact iff_of_true (le_refl 0) (not_lt.mp h2)

theorem compareVals_trans (column : String) (av bv cv : JsValue)
    (h1 : compareVals column av bv ≤ 0) (h2 : compareVals column bv cv ≤ 0) :
    compareVals column av cv ≤ 0 := by
  unfold compareVals at h1 h2 ⊢
  split_ifs at h1 h2 ⊢
  · omega
  · omega
  · rw [strCmp_le] at h1 h2 ⊢
    exact le_trans h1 h2

theorem jsCompare_swap (column direction : String) (a b : TrafficRecord) :
    jsCompare column direction b a = -jsCompare column direction a b := by
  unfold jsCompare
  dsimp only
  by_cases ha : isEmptyVal (recordField a column) = true <;>
    by_cases hb : isEmptyVal (recordField b column) = true <;>
      simp only [ha, hb] <;> split_ifs <;> simp_all <;>
        rw [compareVals_swap] <;> omega

theorem jsCompare_empty_nonempty (column direction : String) (a b : TrafficRecord)
    (ha : isEmptyVal (recordField a column) = true)
    (hb : isEmptyVal (recordField b column) = false) :
    jsCompare column direction a b = 1 ∧ jsCompare column direction b a = -1 := by
  unfold jsCompare
  simp [ha, hb]

theorem jsCompare_trans (column direction : String) (a b c : TrafficRecord)
    (h1 : jsCompare column direction a b ≤ 0)
    (h2 : jsCompare column direction b c ≤ 0) :
    jsCompare column direction a c ≤ 0 := by
  by_cases ha : isEmptyVal (recordField a column) = true <;>
    by_cases hb : isEmptyVal (recordField b column) = true <;>
      by_cases hc : isEmptyVal (recordField c column) = true
  · unfold jsCompare; simp [ha, hc]
  · rw [(jsCompare_empty_nonempty column direction b c hb
      (Bool.not_eq_true _ ▸ hc)).1] at h2
    omega
  · rw [(jsCompare_empty_nonempty column direction a b ha
      (Bool.not_eq_true _ ▸ hb)).1] at h1
    omega
  · rw [(jsCompare_empty_nonempty column direction a b ha
      (Bool.not_eq_true _ ▸ hb)).1] at h1
    omega
  · unfold jsCompare; simp [ha, hc]
  · rw [(jsCompare_empty_nonempty column direction b c hb
      (Bool.not_eq_true _ ▸ hc)).1] at h2
    omega
  · unfold jsCompare; simp [ha, hc]
  · unfold jsCompare at h1 h2 ⊢
    simp only [ha, hb, hc] at h1 h2 ⊢
    split_ifs at h1 h2 ⊢ <;> simp_all
    · exact compareVals_trans column _ _ _ h1 h2
    · have s1 : compareVals column (recordField c column) (recordField b column) ≤ 0 := by
        rw [compareVals_swap]; omega
      have s2 : compareVals column (recordField b column) (recordField a column) ≤ 0 := by
        rw [compareVals_swap]; omega
      have s3 := compareVals_trans column _ _ _ s1 s2
      rw [compareVals_swap] at s3
      omega

theorem jsCompare_total (column direction : String) (a b : TrafficRecord) :
    jsCompare column direction a b ≤ 0 ∨ jsCompare column direction b a ≤ 0 := by
  rcases le_or_lt (jsCompare column direction a b) 0 with h | h
  · exact Or.inl h
  · right
    rw [jsCompare_swap]
    omega

/-- C7: for every column and both directions, sorting places every record
whose value for the chosen column is empty after every record with a non-empty
value; direction flips only the comparison between two non-empty values, and
an empty-vs-non-empty pair compares the same way in both directions. -/
theorem c7_sort_empty_last_both_directions (column direction : String)
    (records : List TrafficRecord) :
    (sortRecords column direction records).Pairwise
      (fun a b => isEmptyVal (recordField a column) = true →
        isEmptyVal (recordField b column) = true) ∧
    (∀ a b, isEmptyVal (recordField a column) = false →
        isEmptyVal (recordField b column) = false →
        jsCompare column "desc" a b = -jsCompare column "asc" a b) ∧
    (∀ a b, isEmptyVal (recordField a column) = true →
        isEmptyVal (recordField b column) = false →
        jsCompare column direction a b = 1 ∧ jsCompare column direction b a = -1) := by
  refine ⟨?_, ?_, fun a b ha hb => jsCompare_empty_nonempty column direction a b ha hb⟩
  · have hp := @List.sorted_mergeSort TrafficRecord
      (fun a b : TrafficRecord => decide (jsCompare column direction a b ≤ 0))
      (fun a b c hab hbc => by
        simp only [decide_eq_true_eq] at hab hbc ⊢
        exact jsCompare_trans column direction a b c hab hbc)
      (fun a b => by
        simp only [Bool.or_eq_true, decide_eq_true_eq]
        exact jsCompare_total column direction a b)
      records
    unfold sortRecords
    refine hp.imp ?_
    intro a b hab ha
    simp only [decide_eq_true_eq] at hab
    by_contra hb
    have hb' : isEmptyVal (recordField b column) = false := by
      rwa [Bool.not_eq_true] at hb
    have := (jsCompare_empty_nonempty column direction a b ha hb').1
    omega
  · intro a b ha hb
    unfold jsCompare
    simp [ha, hb]

/-! ## C1: one record per distinct dedup key, frequency = event count -/

/-- Number of events whose dedup key is `k`. -/
def keyCount (k : String) (logs : List LogEvent) : Nat :=
  (logs.filter (fun e => eventKey e = k)).length

theorem keyCount_append_ne (k : String) (l : List LogEvent) (e : LogEvent)
    (h : eventKey e ≠ k) : keyCount k (l ++ [e]) = keyCount k l := by
  unfold keyCount
  rw [List.filter_append]
  simp [h]

theorem keyCount_append_eq (k : String) (l : List LogEvent) (e : LogEvent)
    (h : eventKey e = k) : keyCount k (l ++ [e]) = keyCount k l + 1 := by
  unfold keyCount
  rw [List.filter_append]
  simp [h]

theorem keyCount_ne_zero_iff (k : String) (logs : List LogEvent) :
    keyCount k logs ≠ 0 ↔ ∃ e ∈ logs, eventKey e = k := by
  unfold keyCount
  rw [Ne, List.length_eq_zero, List.filter_eq_nil_iff]
  push_neg
  simp

/-- The invariant the record map keeps while `processLogs` walks the events:
distinct keys, every entry stored under its own record key with the frequency
seen so far, and a key is present exactly when a processed event had it. -/
def MapInv (m : List (String × TrafficRecord)) (processed : List LogEvent) : Prop :=
  (m.map Prod.fst).Nodup ∧
  (∀ p ∈ m, p.1 ≠ "" ∧ recordKey p.2 = p.1 ∧ p.2.frequency = keyCount p.1 processed) ∧
  (∀ k, k ≠ "" → (keyCount k processed ≠ 0 ↔ k ∈ m.map Prod.fst))

theorem recordKey_mkLambda (e : LogEvent) : recordKey (mkLambda e) = eventKey e := rfl

/-- The merge never changes the record's dedup key. -/
theorem recordKey_update (r : TrafficRecord) (e : LogEvent) (k : String)
    (hk : k ≠ "") (hr : recordKey r = k) (he : eventKey e = k) :
    recordKey (updateExistingRecord r (mkLambda e)) = k := by
  have hs := updateExistingRecord_spec r (mkLambda e)
  obtain ⟨-, -, -, hurl, haddr, -, -, -⟩ := hs
  unfold recordKey jsOr at hr ⊢
  unfold eventKey jsOr at he
  simp only [mkLambda] at hurl haddr ⊢
  rw [hurl, haddr]
  split_ifs at hr he ⊢ <;> simp_all

theorem updateKey_map_fst (m : List (String × TrafficRecord)) (k : String)
    (f : TrafficRecord → TrafficRecord) :
    (updateKey m k f).map Prod.fst = m.map Prod.fst := by
  unfold updateKey
  rw [List.map_map]
  refine List.map_congr_left ?_
  intro p _
  dsimp only [Function.comp]
  split_ifs <;> rfl

theorem MapInv_nil : MapInv [] [] := by
  refine ⟨List.nodup_nil, by simp, ?_⟩
  intro k _
  simp [keyCount]

theorem MapInv_skip (m : List (String × TrafficRecord)) (processed : List LogEvent)
    (e : LogEvent) (h : MapInv m processed) (he : eventKey e = "") :
    MapInv m (processed ++ [e]) := by
  obtain ⟨hnd, hent, hcov⟩ := h
  refine ⟨hnd, ?_, ?_⟩
  · intro p hp
    obtain ⟨h1, h2, h3⟩ := hent p hp
    refine ⟨h1, h2, ?_⟩
    rw [keyCount_append_ne p.1 processed e (by rw [he]; exact fun hc => h1 hc.symm), h3]
  · intro k hk
    rw [keyCount_append_ne k processed e (by rw [he]; exact fun hc => hk hc.symm)]
    exact hcov k hk

theorem MapInv_update (m : List (String × TrafficRecord)) (processed : List LogEvent)
    (e : LogEvent) (k : String) (h : MapInv m processed) (hk : k ≠ "")
    (he : eventKey e = k) (hmem : k ∈ m.map Prod.fst) :
    MapInv (updateKey m k (fun r => updateExistingRecord r (mkLambda e)))
      (processed ++ [e]) := by
  obtain ⟨hnd, hent, hcov⟩ := h
  refine ⟨by rw [updateKey_map_fst]; exact hnd, ?_, ?_⟩
  · intro p' hp'
    unfold updateKey at hp'
    rcases List.mem_map.mp hp' with ⟨p, hp, hpeq⟩
    obtain ⟨h1, h2, h3⟩ := hent p hp
    by_cases hpk : p.1 = k
    · rw [if_pos hpk] at hpeq
      subst hpeq
      refine ⟨h1, ?_, ?_⟩
      · dsimp only
        rw [hpk]
        exact recordKey_update p.2 e k hk (hpk ▸ h2) he
      · dsimp only
        rw [(updateExistingRecord_spec p.2 (mkLambda e)).2.2.1, h3,
          keyCount_append_eq p.1 processed e (by rw [he, hpk])]
    · rw [if_neg hpk] at hpeq
      subst hpeq
      refine ⟨h1, h2, ?_⟩
      rw [keyCount_append_ne p.1 processed e (by rw [he]; exact fun hc => hpk hc.symm), h3]
  · intro k' hk'
    rw [updateKey_map_fst]
    by_cases hkk : k' = k
    · subst hkk
      rw [keyCount_append_eq k' processed e he]
      exact iff_of_true (Nat.succ_ne_zero _) hmem
    · rw [keyCount_append_ne k' processed e (by rw [he]; exact fun hc => hkk hc.symm)]
      exact hcov k' hk'

theorem MapInv_append (m : List (String × TrafficRecord)) (processed : List LogEvent)
    (e : LogEvent) (k : String) (h : MapInv m processed) (hk : k ≠ "")
    (he : eventKey e = k) (hnot : k ∉ m.map Prod.fst) :
    MapInv (m ++ [(k, mkLambda e)]) (processed ++ [e]) := by
  obtain ⟨hnd, hent, hcov⟩ := h
  have hcount0 : keyCount k processed = 0 := by
    by_contra hc
    exact hnot ((hcov k hk).mp hc)
  refine ⟨?_, ?_, ?_⟩
  · rw [List.map_append]
    simp only [List.nodup_append, List.map_cons, List.map_nil]
    exact ⟨hnd, List.nodup_singleton k, by simpa using hnot⟩
  · intro p hp
    rcases List.mem_append.mp hp with hpm | hpnew
    · obtain ⟨h1, h2, h3⟩ := hent p hpm
      have hpk : p.1 ≠ k := fun hc => hnot (hc ▸ List.mem_map_of_mem Prod.fst hpm)
      refine ⟨h1, h2, ?_⟩
      rw [keyCount_append_ne p.1 processed e (by rw [he]; exact fun hc => hpk hc.symm), h3]
    · rcases List.mem_singleton.mp hpnew with rfl
      refine ⟨hk, by rw [recordKey_mkLambda, he], ?_⟩
      dsimp only
      rw [keyCount_append_eq k processed e he, hcount0]
      rfl
  · intro k' hk'
    rw [List.map_append]
    by_cases hkk : k' = k
    · subst hkk
      rw [keyCount_append_eq k' processed e he]
      refine iff_of_true (Nat.succ_ne_zero _) ?_
      simp
    · rw [keyCount_append_ne k' processed e (by rw [he]; exact fun hc => hkk hc.symm)]
      rw [List.mem_append]
      simp only [List.map_cons, List.map_nil, List.mem_singleton, hkk, or_false]
      exact hcov k' hk'

theorem processLogsAux_inv :
    ∀ (logs : List LogEvent) (m : List (String × TrafficRecord)) (processed : List LogEvent),
      MapInv m processed → MapInv (processLogsAux m logs) (processed ++ logs) := by
  intro logs
  induction logs with
  | nil => intro m processed h; simpa using h
  | cons e rest ih =>
    intro m processed h
    unfold processLogsAux
    dsimp only
    rw [show processed ++ e :: rest = (processed ++ [e]) ++ rest by simp]
    rw [show jsOr (mkLambda e).url (mkLambda e).address = eventKey e from rfl]
    split_ifs with hkey hhas
    · exact ih m (processed ++ [e]) (MapInv_skip m processed e h hkey)
    · refine ih _ (processed ++ [e]) ?_
      refine MapInv_update m processed e (eventKey e) h hkey rfl ?_
      unfold hasKey at hhas
      rcases List.any_eq_true.mp hhas with ⟨p, hp, hpk⟩
      rw [decide_eq_true_eq] at hpk
      exact hpk ▸ List.mem_map_of_mem Prod.fst hp
    · refine ih _ (processed ++ [e]) ?_
      refine MapInv_append m processed e (eventKey e) h hkey rfl ?_
      intro hc
      refine hhas ?_
      unfold hasKey
      rcases List.mem_map.mp hc with ⟨p, hp, hpk⟩
      exact List.any_eq_true.mpr ⟨p, hp, decide_eq_true hpk⟩

theorem filter_key_length_nodup (k : String) :
    ∀ (l : List String), l.Nodup →
      (l.filter (fun x => x = k)).length = if k ∈ l then 1 else 0 := by
  intro l
  induction l with
  | nil => intro _; simp
  | cons a t ih =>
    intro hnd
    rcases List.nodup_cons.mp hnd with ⟨ha, ht⟩
    by_cases hak : a = k
    · subst hak
      rw [List.filter_cons_of_pos (by simp)]
      rw [if_pos (List.mem_cons_self a t)]
      have : (t.filter (fun x => x = a)).length = 0 := by
        rw [ih ht, if_neg ha]
      simp [this]
    · rw [List.filter_cons_of_neg (by simpa using hak)]
      rw [ih ht]
      have hmc : (k ∈ a :: t) ↔ k ∈ t := by
        rw [List.mem_cons]
        constructor
        · rintro (rfl | h)
          · exact absurd rfl hak
          · exact h
        · exact Or.inr
      rw [if_congr hmc rfl rfl]

theorem filter_snd_by_key (k : String) :
    ∀ (m : List (String × TrafficRecord)), (∀ p ∈ m, recordKey p.2 = p.1) →
      ((m.map Prod.snd).filter (fun r => recordKey r = k)).length =
        ((m.map Prod.fst).filter (fun x => x = k)).length := by
  intro m
  induction m with
  | nil => intro _; simp
  | cons p t ih =>
    intro hent
    have hp := hent p (List.mem_cons_self p t)
    have ht := fun q hq => hent q (List.mem_cons_of_mem p hq)
    simp only [List.map_cons, List.filter_cons]
    rw [hp]
    split_ifs <;> simp [ih ht]

/-- C1: aggregation produces exactly one record per distinct dedup key that
occurs among the events, and that record's frequency is exactly the number of
events with that key. -/
theorem c1_one_record_per_key_frequency_exact (rawLogs : List LogEvent)
    (k : String) (hk : k ≠ "") :
    ((processLogs rawLogs).filter (fun r => recordKey r = k)).length =
      (if rawLogs.any (fun e => eventKey e = k) then 1 else 0) ∧
    (∀ r ∈ processLogs rawLogs, recordKey r = k →
      r.frequency = (rawLogs.filter (fun e => eventKey e = k)).length) := by
  have hinv := processLogsAux_inv rawLogs [] [] MapInv_nil
  rw [List.nil_append] at hinv
  obtain ⟨hnd, hent, hcov⟩ := hinv
  constructor
  · unfold processLogs
    rw [filter_snd_by_key k _ (fun p hp => (hent p hp).2.1)]
    rw [filter_key_length_nodup k _ hnd]
    have hmem : k ∈ (processLogsAux [] rawLogs).map Prod.fst ↔
        (rawLogs.any (fun e => eventKey e = k) = true) := by
      rw [← hcov k hk, keyCount_ne_zero_iff]
      rw [List.any_eq_true]
      simp
    rw [if_congr hmem rfl rfl]
  · intro r hr hrk
    unfold processLogs at hr
    rcases List.mem_map.mp hr with ⟨p, hp, hpr⟩
    obtain ⟨-, h2, h3⟩ := hent p hp
    have hpk : p.1 = k := by rw [← hrk, ← hpr, h2]
    rw [← hpr, h3, hpk]
    rfl

/-- Concrete events for the C1 witness. -/
def c1Events : List LogEvent :=
  [{ type := "DNS", timestamp := 3, url := "github.com", address := "" },
   { type := "HTTPS", timestamp := 4, url := "", address := "1.2.3.4" },
   { type := "DNS", timestamp := 9, url := "github.com", address := "" }]

theorem c1_witness :
    ((processLogs c1Events).filter (fun r => recordKey r = "github.com")).length =
      (if c1Events.any (fun e => eventKey e = "github.com") then 1 else 0) ∧
    (∀ r ∈ processLogs c1Events, recordKey r = "github.com" →
      r.frequency = (c1Events.filter (fun e => eventKey e = "github.com")).length) :=
  c1_one_record_per_key_frequency_exact c1Events "github.com" (by decide)

end TrafficMonitor
